import Mathlib

/-!
Verification of the geometry-adapter and export-pipeline subsystem of the
manimVTK repository. The adapter/exporter implementation itself is not part
of the checked sources (only its test suite is), so every operation below is
a shallow embedding reconstructed from the specification document, as noted
in each doc comment.
-/

namespace ManimVTK

/-- A 3D coordinate. The source stores floating-point triples; coordinates
are modelled as exact rationals. -/
structure Point3 where
  x : Rat
  y : Rat
  z : Rat
deriving DecidableEq

/-- An RGBA color: four components (R, G, B, A) per point. -/
abbrev RGBA : Type := Rat × Rat × Rat × Rat

/-- Modelled from the spec: a named per-point attribute attached to a mesh is
either a scalar array or an array of 3-vectors (spec section 3, named fields).
The missing code is the field-attacher module of the vtk adapter. -/
inductive FieldData where
  | scalar (values : List Rat)
  | vector (vectors : List (List Rat))
deriving DecidableEq

/-- Modelled from the spec: the core's flat mesh representation (spec section
3): ordered 3D points, line cells and polygon cells as index sequences,
optional per-point colors, and named per-point fields. The missing code is
the VTK PolyData value built by the adapter. -/
structure Mesh where
  points : List Point3
  lines : List (List Nat)
  polygons : List (List Nat)
  pointColors : List RGBA
  namedFields : List (String × FieldData)
deriving DecidableEq

/-- The empty mesh: zero points, cells, colors and fields. -/
def emptyMesh : Mesh := ⟨[], [], [], [], []⟩

/-- One sub-path of a path-based shape: its ordered anchor points and its
closed flag (spec section 3). -/
structure Subpath where
  pts : List Point3
  closed : Bool

mutual
/-- Modelled from the spec: a scene-tree shape is a path-based leaf (anchor
points in sub-paths, fill opacity, stroke width, optional per-point colors),
a parametric-surface leaf (coordinate function, parameter ranges, resolution
pair), or a container of children (spec sections 3 and 9). The missing code
is the mobject tree consumed by the adapter. -/
inductive Shape where
  | path (subpaths : List Subpath) (fillOpacity strokeWidth : Rat)
      (colors : Option (List RGBA))
  | surface (coord : Rat → Rat → Point3) (uRange vRange : Rat × Rat)
      (resolution : Nat × Nat)
  | container (children : ShapeList)
/-- An ordered list of child shapes (the content of a container, or the
argument list handed to the exporters). -/
inductive ShapeList where
  | nil
  | cons (head : Shape) (tail : ShapeList)
end

/-- Modelled from the spec: the geometry classifier's POLYGONS verdict — fill
opacity > 0 includes POLYGONS (spec section 4.1). -/
def includesPolygons (fillOpacity : Rat) : Bool := decide (0 < fillOpacity)

/-- Modelled from the spec: the geometry classifier's LINES verdict — stroke
width > 0 or fill opacity == 0 includes LINES (spec section 4.1). -/
def includesLines (strokeWidth fillOpacity : Rat) : Bool :=
  decide (0 < strokeWidth) || decide (fillOpacity = 0)

/-- Modelled from the spec: cell generation for a path-based leaf (spec
section 4.2), walking the sub-paths with a running start index. When
LINES-classified, each non-empty sub-path becomes one line cell over its
point indices in order, with the first index repeated at the end for a
closed sub-path; when POLYGONS-classified, each closed sub-path with at
least 3 points becomes one polygon cell (sub-paths with fewer points are
skipped for polygon purposes). Returns (line cells, polygon cells). -/
def pathCells (wantLines wantPolys : Bool) (start : Nat) :
    List Subpath → List (List Nat) × List (List Nat)
  | [] => ([], [])
  | sp :: rest =>
    let cells := pathCells wantLines wantPolys (start + sp.pts.length) rest
    let idxs := (List.range sp.pts.length).map (fun j => j + start)
    let ls := if wantLines && decide (1 ≤ sp.pts.length) then
        (if sp.closed then idxs ++ [start] else idxs) :: cells.1
      else cells.1
    let ps := if wantPolys && sp.closed && decide (3 ≤ sp.pts.length) then
        idxs :: cells.2
      else cells.2
    (ls, ps)

/-- Modelled from the spec: conversion of a path-based leaf (spec section
4.2). Each sub-path's ordered anchor points become mesh points, cells follow
the classifier's verdict, and point colors, if present on the source, are
copied 1:1 by index. A shape with no points yields the empty mesh. -/
def pathToMesh (subpaths : List Subpath) (fillOpacity strokeWidth : Rat)
    (colors : Option (List RGBA)) : Mesh :=
  let pts := (subpaths.map Subpath.pts).flatten
  let cells :=
    pathCells (includesLines strokeWidth fillOpacity) (includesPolygons fillOpacity) 0 subpaths
  { points := pts
    lines := cells.1
    polygons := cells.2
    pointColors :=
      match colors with
      | none => []
      | some cs => (List.range pts.length).map (fun i => cs.getD i (1, 1, 1, 1))
    namedFields := [] }

/-- Modelled from the spec: the i-th of n regular grid samples spanning a
declared parameter range (spec section 4.2). -/
def gridCoord (lo hi : Rat) (n i : Nat) : Rat :=
  if n ≤ 1 then lo else lo + (hi - lo) * (i : Rat) / ((n : Rat) - 1)

/-- Modelled from the spec: conversion of a parametric-surface leaf (spec
section 4.2). The coordinate function is evaluated over a
`resolution.1 × resolution.2` regular grid spanning the parameter ranges:
one point per grid node in row-major order, one quadrilateral polygon per
grid cell, zero polygons when either resolution dimension is below 2, and
never any line cells. -/
def surface_to_vtk_polydata (coord : Rat → Rat → Point3) (uRange vRange : Rat × Rat)
    (resolution : Nat × Nat) : Mesh :=
  let r := resolution.1
  let c := resolution.2
  { points := ((List.range r).map (fun i => (List.range c).map (fun j =>
      coord (gridCoord uRange.1 uRange.2 r i) (gridCoord vRange.1 vRange.2 c j)))).flatten
    lines := []
    polygons := ((List.range (r - 1)).map (fun i => (List.range (c - 1)).map (fun j =>
      [i * c + j, i * c + j + 1, (i + 1) * c + j + 1, (i + 1) * c + j]))).flatten
    pointColors := []
    namedFields := [] }

/-- Modelled from the spec: concatenation of two meshes by the group
flattener (spec section 4.3): point arrays are appended and every cell index
of the second mesh is offset by the number of previously appended points. -/
def meshAppend (m1 m2 : Mesh) : Mesh :=
  { points := m1.points ++ m2.points
    lines := m1.lines ++ m2.lines.map (List.map (fun i => i + m1.points.length))
    polygons := m1.polygons ++ m2.polygons.map (List.map (fun i => i + m1.points.length))
    pointColors := m1.pointColors ++ m2.pointColors
    namedFields := m1.namedFields ++ m2.namedFields }

mutual
/-- Modelled from the spec: the generic shape-to-mesh dispatcher (spec
sections 4.2 and 9): path leaves and containers go through the vmobject
converter, parametric surfaces through the surface converter. -/
def mobject_to_vtk_polydata : Shape → Mesh
  | .path sps fo sw cols => pathToMesh sps fo sw cols
  | .surface f uR vR res => surface_to_vtk_polydata f uR vR res
  | .container cs => vmobject_to_vtk_polydata cs
/-- Modelled from the spec: the group flattener (spec section 4.3): children
are visited in declaration order, converted, and concatenated with cell
indices offset by the running total of previously appended points; an empty
container yields the empty, valid mesh. -/
def vmobject_to_vtk_polydata : ShapeList → Mesh
  | .nil => emptyMesh
  | .cons s rest => meshAppend (mobject_to_vtk_polydata s) (vmobject_to_vtk_polydata rest)
end

mutual
/-- Total number of anchor points a shape contributes: sub-path point counts
for a path leaf, the full grid for a surface leaf, the children's total for
a container. -/
def totalPoints : Shape → Nat
  | .path sps _ _ _ => (sps.map (fun sp => sp.pts.length)).sum
  | .surface _ _ _ res => res.1 * res.2
  | .container cs => totalPointsList cs
/-- Total number of anchor points contributed by a list of shapes. -/
def totalPointsList : ShapeList → Nat
  | .nil => 0
  | .cons s rest => totalPoints s + totalPointsList rest
end

mutual
/-- The meshes of the leaf shapes reachable from a shape, in depth-first
pre-order (the order the group flattener visits them). -/
def leafMeshes : Shape → List Mesh
  | .path sps fo sw cols => [pathToMesh sps fo sw cols]
  | .surface f uR vR res => [surface_to_vtk_polydata f uR vR res]
  | .container cs => leafMeshesList cs
/-- The leaf meshes reachable from a list of shapes, in visiting order. -/
def leafMeshesList : ShapeList → List Mesh
  | .nil => []
  | .cons s rest => leafMeshes s ++ leafMeshesList rest
end

/-- The number of shapes in a shape list. -/
def ShapeList.length : ShapeList → Nat
  | .nil => 0
  | .cons _ rest => rest.length + 1

/-- Concatenation of a list of meshes in order, with cell-index offsetting
as performed by the group flattener. -/
def meshConcat (ms : List Mesh) : Mesh := ms.foldr meshAppend emptyMesh

/-- Shift every index of every cell by `n`. -/
def shiftCells (n : Nat) (cells : List (List Nat)) : List (List Nat) :=
  cells.map (List.map (fun i => i + n))

/-- The cells of a list of meshes, concatenated with each mesh's cells
shifted by the running total of the previous meshes' point counts. -/
def offsetCells (f : Mesh → List (List Nat)) : List Mesh → Nat → List (List Nat)
  | [], _ => []
  | m :: rest, acc => shiftCells acc (f m) ++ offsetCells f rest (acc + m.points.length)

/-- The running point-count offset of the k-th mesh in a list: the sum of
the point counts of the meshes before it. -/
def offsetAt (ms : List Mesh) (k : Nat) : Nat :=
  ((ms.map (fun m => m.points.length)).take k).sum

/-- Every index of every cell of the mesh references an existing point. -/
def meshBounded (m : Mesh) : Prop :=
  ∀ cell ∈ m.lines ++ m.polygons, ∀ i ∈ cell, i < m.points.length

/-- Modelled from the spec: the mesh invariants of spec section 3 that make
a mesh a syntactically valid single-mesh export target: every line cell has
at least 2 indices and every polygon cell at least 3, all in range; colors,
when present, and named fields are parallel to the points. -/
def meshIsValid (m : Mesh) : Bool :=
  m.lines.all (fun cell =>
      decide (2 ≤ cell.length) && cell.all (fun i => decide (i < m.points.length))) &&
  m.polygons.all (fun cell =>
      decide (3 ≤ cell.length) && cell.all (fun i => decide (i < m.points.length))) &&
  (m.pointColors.isEmpty || m.pointColors.length == m.points.length) &&
  m.namedFields.all (fun nf =>
    (match nf.2 with
     | .scalar vs => vs.length
     | .vector vs => vs.length) == m.points.length)

/-- Modelled from the spec: the error taxonomy of spec section 7 relevant to
the field attacher. -/
inductive VTKError where
  | sizeMismatch
deriving DecidableEq

/-- The outcome of a field-attachment call on a mesh: the mesh state after
the call together with the error raised, if any (a raised error leaves the
mesh unmodified). -/
structure AttachResult where
  mesh : Mesh
  error : Option VTKError
deriving DecidableEq

/-- Replace the entry of the given name, or append a new one: re-attaching
under the same name replaces the prior array (spec section 4.4). -/
def setField : List (String × FieldData) → String → FieldData → List (String × FieldData)
  | [], name, d => [(name, d)]
  | (k, v) :: rest, name, d =>
      if k = name then (name, d) :: rest else (k, v) :: setField rest name d

/-- Look a named field up in a mesh's field mapping. -/
def getField : List (String × FieldData) → String → Option FieldData
  | [], _ => none
  | (k, v) :: rest, name => if k = name then some v else getField rest name

/-- Modelled from the spec: attach_scalar (spec section 4.4), called
add_scalar_field in the test suite. Requires the value array's length to
equal the mesh's point count, else raises SizeMismatch leaving the mesh
unmodified. -/
def add_scalar_field (m : Mesh) (name : String) (values : List Rat) : AttachResult :=
  if values.length = m.points.length then
    ⟨{ m with namedFields := setField m.namedFields name (.scalar values) }, none⟩
  else ⟨m, some .sizeMismatch⟩

/-- Modelled from the spec: attach_vector (spec section 4.4), called
add_vector_field in the test suite. Requires every vector to have exactly 3
components and the array's length to equal the mesh's point count, else
raises SizeMismatch leaving the mesh unmodified. -/
def add_vector_field (m : Mesh) (name : String) (vectors : List (List Rat)) : AttachResult :=
  if vectors.length = m.points.length ∧ ∀ v ∈ vectors, v.length = 3 then
    ⟨{ m with namedFields := setField m.namedFields name (.vector vectors) }, none⟩
  else ⟨m, some .sizeMismatch⟩

/-- Modelled from the spec: one entry of the collection manifest (spec
section 6): a timestep attribute and a relative file attribute. -/
structure PVDEntry where
  timestep : Rat
  file : String
deriving DecidableEq

instance : Inhabited PVDEntry := ⟨⟨0, ""⟩⟩

/-- Modelled from the spec: the collection manifest document: a root
container type declaration and the ordered frame entries. -/
structure PVDDoc where
  rootType : String
  entries : List PVDEntry
deriving DecidableEq

/-- Modelled from the spec: the content of one file written into the output
directory: a single-mesh file, a composite multi-block file of named
members, or a collection manifest (spec section 6). -/
inductive DiskFile where
  | vtp (mesh : Mesh)
  | vtm (members : List (String × Mesh))
  | pvd (doc : PVDDoc)
deriving DecidableEq

/-- Whether a written file is in the single-mesh container format. -/
def DiskFile.isSingleMesh : DiskFile → Bool
  | .vtp _ => true
  | _ => false

/-- Whether a written file is in the composite multi-block container format. -/
def DiskFile.isComposite : DiskFile → Bool
  | .vtm _ => true
  | _ => false

/-- Modelled from the spec: the exporter session state (spec section 3):
output directory, scene name, the frame counter and the ordered
(time, filename) frame records; `disk` models the contents the exporter has
written into its output directory, in write order. -/
structure VTKExporter where
  output_dir : String
  scene_name : String
  frame_count : Nat
  frame_files : List (Rat × String)
  disk : List (String × DiskFile)
deriving DecidableEq

/-- Modelled from the spec: a freshly constructed exporter: the output
directory is created eagerly, the counter starts at 0 and the record list
empty, nothing written yet. -/
def VTKExporter.init (dir name : String) : VTKExporter := ⟨dir, name, 0, [], []⟩

/-- Whether `ext` is a suffix of `s`. -/
def hasSuffix (s ext : String) : Bool := decide (ext.data <:+ s.data)

/-- Modelled from the spec: a filename lacking the required extension has it
appended, and one already carrying it is kept as is (spec section 4.5). -/
def ensureExt (name ext : String) : String :=
  if hasSuffix name ext then name else name ++ ext

/-- Modelled from the spec: the 5-digit zero-padded rendering of a frame
index (spec section 4.6). -/
def pad5 (n : Nat) : String :=
  let s := Nat.repr n
  String.mk (List.replicate (5 - s.length) '0') ++ s

/-- A descriptive member name for a shape, used for composite members and
default filenames. -/
def shapeKindName : Shape → String
  | .path _ _ _ _ => "VMobject"
  | .surface _ _ _ _ => "Surface"
  | .container _ => "VGroup"

/-- The named members of a composite export: each shape flattened
independently into its own mesh (spec section 4.5). -/
def sceneMembers : ShapeList → List (String × Mesh)
  | .nil => []
  | .cons s rest => (shapeKindName s, mobject_to_vtk_polydata s) :: sceneMembers rest

/-- Modelled from the spec: the file written by the static scene export
(spec section 4.5): with 0 or 1 shapes, one combined mesh in the single-mesh
format with the single-mesh extension; with 2 or more, every shape flattened
independently into a named member of one composite container file. -/
def scene_static_file (e : VTKExporter) (shapes : ShapeList) (filename : Option String) :
    String × DiskFile :=
  if shapes.length ≤ 1 then
    (ensureExt (filename.getD (e.scene_name ++ "_scene")) ".vtp",
      .vtp (vmobject_to_vtk_polydata shapes))
  else
    (ensureExt (filename.getD (e.scene_name ++ "_scene")) ".vtm",
      .vtm (sceneMembers shapes))

/-- Modelled from the spec: export_scene_static (spec section 4.5): writes
the scene file chosen by `scene_static_file` into the output directory and
returns its name. -/
def export_scene_static (e : VTKExporter) (shapes : ShapeList) (filename : Option String) :
    VTKExporter × String :=
  let fd := scene_static_file e shapes filename
  ({ e with disk := e.disk ++ [fd] }, fd.1)

/-- Modelled from the spec: export_mobject (spec section 4.5): converts one
shape and writes it as a single-mesh file; the default filename derives from
the shape's type name plus an autoincrement-safe suffix. -/
def export_mobject (e : VTKExporter) (shape : Shape) (filename : Option String) :
    VTKExporter × String :=
  let fname := ensureExt
    (filename.getD (shapeKindName shape ++ "_" ++ Nat.repr e.disk.length)) ".vtp"
  ({ e with disk := e.disk ++ [(fname, .vtp (mobject_to_vtk_polydata shape))] }, fname)

/-- The per-frame filename: the scene name with the zero-padded frame index
embedded, carrying the single-mesh extension. -/
def frame_filename (sceneName : String) (idx : Nat) : String :=
  sceneName ++ "_frame_" ++ pad5 idx ++ ".vtp"

/-- Modelled from the spec: export_frame (spec section 4.6): flattens the
shapes into one combined mesh, writes it as a single-mesh file named by the
explicit frame number if given and by the internal counter otherwise,
appends the (time, filename) record, and increments the counter by exactly
one in either case. -/
def export_frame (e : VTKExporter) (shapes : ShapeList) (time : Rat)
    (frame_number : Option Nat) : VTKExporter × String :=
  let idx := frame_number.getD e.frame_count
  let fname := frame_filename e.scene_name idx
  ({ e with
      frame_count := e.frame_count + 1
      frame_files := e.frame_files ++ [(time, fname)]
      disk := e.disk ++ [(fname, .vtp (vmobject_to_vtk_polydata shapes))] }, fname)

/-- Modelled from the spec: the manifest document emitted by write_pvd (spec
section 4.6): the root declares a Collection container type, with one entry
per recorded frame carrying its recorded time and relative filename, in
recording order. -/
def pvd_document (e : VTKExporter) : PVDDoc :=
  ⟨"Collection", e.frame_files.map (fun tf => ⟨tf.1, tf.2⟩)⟩

/-- Modelled from the spec: write_pvd (spec section 4.6): writes the
manifest into the output directory under a scene-name-derived default name,
appending the manifest extension when missing. -/
def write_pvd (e : VTKExporter) (filename : Option String) : VTKExporter × String :=
  let fname := ensureExt (filename.getD e.scene_name) ".pvd"
  ({ e with disk := e.disk ++ [(fname, .pvd (pvd_document e))] }, fname)

/-- Modelled from the spec: reset_time_series (spec section 4.6): clears the
frame counter and the frame records without touching already-written files. -/
def reset_time_series (e : VTKExporter) : VTKExporter :=
  { e with frame_count := 0, frame_files := [] }

/-- One exporter operation, for stating invariants over arbitrary call
sequences. -/
inductive ExporterOp where
  | opExportMobject (shape : Shape) (filename : Option String)
  | opExportSceneStatic (shapes : ShapeList) (filename : Option String)
  | opExportFrame (shapes : ShapeList) (time : Rat) (frame_number : Option Nat)
  | opWritePvd (filename : Option String)
  | opReset

/-- Run one exporter operation on the session state. -/
def applyOp (e : VTKExporter) : ExporterOp → VTKExporter
  | .opExportMobject s f => (export_mobject e s f).1
  | .opExportSceneStatic ss f => (export_scene_static e ss f).1
  | .opExportFrame ss t n => (export_frame e ss t n).1
  | .opWritePvd f => (write_pvd e f).1
  | .opReset => reset_time_series e

/-- Run a sequence of exporter operations in order. -/
def applyOps (e : VTKExporter) (ops : List ExporterOp) : VTKExporter :=
  ops.foldl applyOp e

/-- Apply `export_frame` once per listed time, in order, with default
numbering (no explicit frame number). -/
def export_frames_default (e : VTKExporter) (shapes : ShapeList) (times : List Rat) :
    VTKExporter :=
  times.foldl (fun acc t => (export_frame acc shapes t none).1) e

/-- The (time, filename) records produced by consecutive default-numbered
frame exports starting at frame index `start`. -/
def expectedRecords (name : String) (start : Nat) : List Rat → List (Rat × String)
  | [] => []
  | t :: ts => (t, frame_filename name start) :: expectedRecords name (start + 1) ts

/-- A concrete open path leaf with three points and full fill opacity. -/
def openTriangle : Shape :=
  .path [⟨[⟨0, 0, 0⟩, ⟨1, 0, 0⟩, ⟨0, 1, 0⟩], false⟩] 1 0 none

/-- A concrete stroke-only two-point segment (zero fill, unit stroke). -/
def strokeSegment : Shape :=
  .path [⟨[⟨-1, 0, 0⟩, ⟨1, 0, 0⟩], false⟩] 0 1 none

/-- A concrete closed filled triangle (half fill opacity, unit stroke). -/
def filledTriangle : Shape :=
  .path [⟨[⟨0, 0, 0⟩, ⟨1, 0, 0⟩, ⟨0, 1, 0⟩], true⟩] (1/2) 1 none

/-- A concrete two-shape scene, one stroke-only and one filled leaf. -/
def sampleScene : ShapeList :=
  .cons strokeSegment (.cons filledTriangle .nil)

/-- A concrete parametric coordinate function. -/
def sampleCoord : Rat → Rat → Point3 := fun u v => ⟨u, v, u * v⟩

/-- A concrete two-point mesh with one line cell. -/
def sampleMesh2 : Mesh :=
  { points := [⟨0, 0, 0⟩, ⟨1, 0, 0⟩]
    lines := [[0, 1]]
    polygons := []
    pointColors := []
    namedFields := [] }

/-- Claim C8: reset_time_series sets frame_count to 0 and empties the frame
records, and changes nothing else — the files already written into the
output directory, the output directory and the scene name are untouched. -/
theorem claim8_reset_time_series (e : VTKExporter) :
    (reset_time_series e).frame_count = 0 ∧
    (reset_time_series e).frame_files = [] ∧
    (reset_time_series e).disk = e.disk ∧
    (reset_time_series e).output_dir = e.output_dir ∧
    (reset_time_series e).scene_name = e.scene_name :=
  ⟨rfl, rfl, rfl, rfl, rfl⟩

/-- One exporter operation preserves the counter-equals-record-length
invariant. -/
theorem applyOp_preserves_count (e : VTKExporter) (op : ExporterOp)
    (h : e.frame_count = e.frame_files.length) :
    (applyOp e op).frame_count = (applyOp e op).frame_files.length := by
  cases op <;>
    simp [applyOp, export_mobject, export_scene_static, export_frame, write_pvd,
      reset_time_series, h]

/-- A sequence of exporter operations preserves the
counter-equals-record-length invariant. -/
theorem applyOps_preserves_count (ops : List ExporterOp) (e : VTKExporter)
    (h : e.frame_count = e.frame_files.length) :
    (applyOps e ops).frame_count = (applyOps e ops).frame_files.length := by
  induction ops generalizing e with
  | nil => exact h
  | cons op rest ih =>
      exact ih (applyOp e op) (applyOp_preserves_count e op h)

/-- Claim C10: under every sequence of exporter operations (construction,
static exports, frame exports with or without an explicit frame number,
manifest writes, resets), the exporter's frame_count equals the length of
its frame_files record list; a freshly constructed exporter has
frame_count 0 and no frame records. -/
theorem claim10_frame_count_invariant (dir name : String) (ops : List ExporterOp) :
    (VTKExporter.init dir name).frame_count = 0 ∧
    (VTKExporter.init dir name).frame_files = [] ∧
    (applyOps (VTKExporter.init dir name) ops).frame_count
      = (applyOps (VTKExporter.init dir name) ops).frame_files.length :=
  ⟨rfl, rfl, applyOps_preserves_count ops (VTKExporter.init dir name) rfl⟩

/-- Looking up a field right after setting it returns exactly the stored
array. -/
theorem getField_setField (fs : List (String × FieldData)) (name : String) (d : FieldData) :
    getField (setField fs name d) name = some d := by
  induction fs with
  | nil => simp [setField, getField]
  | cons kv rest ih =>
      by_cases h : kv.1 = name
      · simp [setField, getField, h]
      · simp [setField, getField, h, ih]

/-- Claim C5: add_scalar_field succeeds exactly when the value array's
length equals the mesh's point count, and add_vector_field exactly when
every vector has exactly 3 components and the array's length equals the
point count; otherwise SizeMismatch is raised and the mesh — geometry and
named fields — is left unmodified; on success the attached array is read
back by name exactly, with the geometry unchanged. -/
theorem claim5_field_attachment (m : Mesh) (name : String) (values : List Rat)
    (vectors : List (List Rat)) :
    ((add_scalar_field m name values).error = none ↔ values.length = m.points.length) ∧
    (values.length ≠ m.points.length →
      add_scalar_field m name values = ⟨m, some .sizeMismatch⟩) ∧
    (values.length = m.points.length →
      (add_scalar_field m name values).error = none ∧
      getField (add_scalar_field m name values).mesh.namedFields name
        = some (.scalar values) ∧
      (add_scalar_field m name values).mesh.points = m.points ∧
      (add_scalar_field m name values).mesh.lines = m.lines ∧
      (add_scalar_field m name values).mesh.polygons = m.polygons ∧
      (add_scalar_field m name values).mesh.pointColors = m.pointColors) ∧
    ((add_vector_field m name vectors).error = none ↔
      vectors.length = m.points.length ∧ ∀ v ∈ vectors, v.length = 3) ∧
    (¬(vectors.length = m.points.length ∧ ∀ v ∈ vectors, v.length = 3) →
      add_vector_field m name vectors = ⟨m, some .sizeMismatch⟩) ∧
    (vectors.length = m.points.length ∧ (∀ v ∈ vectors, v.length = 3) →
      (add_vector_field m name vectors).error = none ∧
      getField (add_vector_field m name vectors).mesh.namedFields name
        = some (.vector vectors) ∧
      (add_vector_field m name vectors).mesh.points = m.points ∧
      (add_vector_field m name vectors).mesh.lines = m.lines ∧
      (add_vector_field m name vectors).mesh.polygons = m.polygons ∧
      (add_vector_field m name vectors).mesh.pointColors = m.pointColors) := by
  refine ⟨?_, ?_, ?_, ?_, ?_, ?_⟩
  · by_cases h : values.length = m.points.length <;> simp [add_scalar_field, h]
  · intro h; simp [add_scalar_field, h]
  · intro h; simp [add_scalar_field, h, getField_setField]
  · unfold add_vector_field
    by_cases hc : vectors.length = m.points.length ∧ ∀ v ∈ vectors, v.length = 3
    · rw [if_pos hc]; simpa using hc
    · rw [if_neg hc]; simp [hc]
  · intro h; unfold add_vector_field; rw [if_neg h]
  · intro h; unfold add_vector_field; rw [if_pos h]; simp [getField_setField]

/-- Claim C5 witness: on a concrete two-point mesh a matching scalar array
attaches and reads back, a short one raises SizeMismatch leaving the mesh
unchanged, and likewise for 3-component vector arrays. -/
theorem claim5_field_attachment_witness :
    getField (add_scalar_field sampleMesh2 "pressure" [1, 2]).mesh.namedFields "pressure"
      = some (.scalar [1, 2]) ∧
    add_scalar_field sampleMesh2 "pressure" [1] = ⟨sampleMesh2, some .sizeMismatch⟩ ∧
    getField (add_vector_field sampleMesh2 "velocity" [[1, 2, 3], [4, 5, 6]]).mesh.namedFields
        "velocity" = some (.vector [[1, 2, 3], [4, 5, 6]]) ∧
    add_vector_field sampleMesh2 "velocity" [[1, 2]] = ⟨sampleMesh2, some .sizeMismatch⟩ := by
  refine ⟨?_, ?_, ?_, ?_⟩
  · exact ((claim5_field_attachment sampleMesh2 "pressure" [1, 2] []).2.2.1 (by decide)).2.1
  · exact (claim5_field_attachment sampleMesh2 "pressure" [1] []).2.1 (by decide)
  · exact ((claim5_field_attachment sampleMesh2 "velocity" []
      [[1, 2, 3], [4, 5, 6]]).2.2.2.2.2 (by decide)).2.1
  · exact (claim5_field_attachment sampleMesh2 "velocity" [] [[1, 2]]).2.2.2.2.1 (by decide)

/-- Two suffixes of the same list that have the same length are equal. -/
theorem suffix_eq_of_length_eq {s a b : List Char} (ha : a <:+ s) (hb : b <:+ s)
    (h : a.length = b.length) : a = b := by
  obtain ⟨t, rfl⟩ := ha
  obtain ⟨u, hu⟩ := hb
  have hlen : u.length = t.length := by
    have := congrArg List.length hu
    simp only [List.length_append] at this
    omega
  exact (List.append_inj_right hu hlen).symm

/-- Appending the required extension indeed yields a filename carrying it. -/
theorem hasSuffix_ensureExt (name ext : String) :
    hasSuffix (ensureExt name ext) ext = true := by
  unfold ensureExt
  cases hx : hasSuffix name ext
  · rw [if_neg (by simp [hx])]
    simp only [hasSuffix, decide_eq_true_eq, String.data_append]
    exact List.suffix_append name.data ext.data
  · rw [if_pos (by simp [hx])]
    exact hx

/-- A filename carrying the `.vtm` extension does not carry `.vtp`, and
conversely. -/
theorem not_hasSuffix_of_other {s : String} {e1 e2 : String}
    (h1 : hasSuffix s e1 = true) (hlen : e1.data.length = e2.data.length)
    (hne : e1.data ≠ e2.data) : hasSuffix s e2 = false := by
  by_contra hc
  have h2 : hasSuffix s e2 = true := by
    cases hx : hasSuffix s e2
    · exact absurd hx hc
    · rfl
  simp only [hasSuffix, decide_eq_true_eq] at h1 h2
  exact hne (suffix_eq_of_length_eq h1 h2 hlen)

/-- Claim C2: the container format written by export_scene_static is the
single-mesh format, with the `.vtp` suffix, exactly when the shape list has
at most one element, and the composite multi-block format, with the `.vtm`
suffix, exactly when it has two or more — independent of the shapes' point
counts, and for every caller-supplied or defaulted filename. -/
theorem claim2_format_by_cardinality (e : VTKExporter) (shapes : ShapeList)
    (fn : Option String) :
    ((scene_static_file e shapes fn).2.isSingleMesh = true ↔ shapes.length ≤ 1) ∧
    ((scene_static_file e shapes fn).2.isComposite = true ↔ 2 ≤ shapes.length) ∧
    (hasSuffix (scene_static_file e shapes fn).1 ".vtp" = true ↔ shapes.length ≤ 1) ∧
    (hasSuffix (scene_static_file e shapes fn).1 ".vtm" = true ↔ 2 ≤ shapes.length) ∧
    (export_scene_static e shapes fn).1.disk = e.disk ++ [scene_static_file e shapes fn] := by
  by_cases h : shapes.length ≤ 1
  · unfold export_scene_static scene_static_file
    rw [if_pos h]
    refine ⟨by simp [DiskFile.isSingleMesh, h], by simp [DiskFile.isComposite]; omega, ?_, ?_, rfl⟩
    · simp [hasSuffix_ensureExt, h]
    · rw [not_hasSuffix_of_other (hasSuffix_ensureExt _ ".vtp") (by decide) (by decide)]
      simp; omega
  · unfold export_scene_static scene_static_file
    rw [if_neg h]
    refine ⟨by simp [DiskFile.isSingleMesh, h], by simp [DiskFile.isComposite]; omega, ?_, ?_, rfl⟩
    · rw [not_hasSuffix_of_other (hasSuffix_ensureExt _ ".vtm") (by decide) (by decide)]
      simp [h]
    · simp only [hasSuffix_ensureExt, true_iff]
      omega

/-- Claim C2 witness: a concrete two-shape scene is written composite with
the `.vtm` suffix, and a concrete one-shape scene single-mesh with `.vtp`,
whatever their point counts. -/
theorem claim2_format_by_cardinality_witness :
    ((scene_static_file (VTKExporter.init "out" "S") sampleScene none).2.isComposite = true) ∧
    (hasSuffix (scene_static_file (VTKExporter.init "out" "S") sampleScene none).1 ".vtm"
      = true) ∧
    ((scene_static_file (VTKExporter.init "out" "S") (.cons strokeSegment .nil)
      none).2.isSingleMesh = true) ∧
    (hasSuffix (scene_static_file (VTKExporter.init "out" "S") (.cons strokeSegment .nil)
      none).1 ".vtp" = true) := by
  refine ⟨?_, ?_, ?_, ?_⟩
  · exact (claim2_format_by_cardinality (VTKExporter.init "out" "S") sampleScene
      none).2.1.mpr (by decide)
  · exact (claim2_format_by_cardinality (VTKExporter.init "out" "S") sampleScene
      none).2.2.2.1.mpr (by decide)
  · exact (claim2_format_by_cardinality (VTKExporter.init "out" "S")
      (.cons strokeSegment .nil) none).1.mpr (by decide)
  · exact (claim2_format_by_cardinality (VTKExporter.init "out" "S")
      (.cons strokeSegment .nil) none).2.2.1.mpr (by decide)

/-- The zero-padded frame index is embedded in the per-frame filename. -/
theorem pad5_infix_frame_filename (name : String) (idx : Nat) :
    List.IsInfix (pad5 idx).data (frame_filename name idx).data :=
  ⟨(name ++ "_frame_").data, ".vtp".data, by
    simp [frame_filename, String.data_append, List.append_assoc]⟩

/-- The per-frame filename carries the single-mesh extension. -/
theorem frame_filename_hasSuffix (name : String) (idx : Nat) :
    hasSuffix (frame_filename name idx) ".vtp" = true := by
  simp only [hasSuffix, frame_filename, decide_eq_true_eq, String.data_append]
  exact List.suffix_append _ _

/-- Claim C6: every export_frame call writes a single-mesh `.vtp` file of
the flattened scene whose name embeds the 5-digit zero-padded index — the
explicit frame_number when one is given and the current internal
frame_count otherwise — appends the (time, filename) record, and increments
frame_count by exactly 1 whether or not an explicit frame_number was
supplied. -/
theorem claim6_export_frame (e : VTKExporter) (shapes : ShapeList) (t : Rat)
    (fnum : Option Nat) :
    List.IsInfix (pad5 (fnum.getD e.frame_count)).data
      (export_frame e shapes t fnum).2.data ∧
    hasSuffix (export_frame e shapes t fnum).2 ".vtp" = true ∧
    (export_frame e shapes t fnum).1.disk = e.disk ++
      [((export_frame e shapes t fnum).2, .vtp (vmobject_to_vtk_polydata shapes))] ∧
    (export_frame e shapes t fnum).1.frame_files
      = e.frame_files ++ [(t, (export_frame e shapes t fnum).2)] ∧
    (export_frame e shapes t fnum).1.frame_count = e.frame_count + 1 :=
  ⟨pad5_infix_frame_filename e.scene_name (fnum.getD e.frame_count),
   frame_filename_hasSuffix e.scene_name (fnum.getD e.frame_count),
   rfl, rfl, rfl⟩

/-- Folding default-numbered frame exports: the scene name and output
directory are stable, the counter advances by the number of frames, and the
appended records are exactly the expected (time, filename) pairs numbered
from the starting counter. -/
theorem export_frames_default_spec (shapes : ShapeList) (times : List Rat)
    (e : VTKExporter) :
    (export_frames_default e shapes times).scene_name = e.scene_name ∧
    (export_frames_default e shapes times).frame_count = e.frame_count + times.length ∧
    (export_frames_default e shapes times).frame_files
      = e.frame_files ++ expectedRecords e.scene_name e.frame_count times := by
  induction times generalizing e with
  | nil => simp [export_frames_default, expectedRecords]
  | cons t ts ih =>
      have step : export_frames_default e shapes (t :: ts)
          = export_frames_default (export_frame e shapes t none).1 shapes ts := rfl
      obtain ⟨h1, h2, h3⟩ := ih (export_frame e shapes t none).1
      refine ⟨by rw [step, h1]; rfl, ?_, ?_⟩
      · rw [step, h2]
        simp only [export_frame, List.length_cons]
        omega
      · rw [step, h3]
        simp [export_frame, expectedRecords, Option.getD]

/-- The i-th expected record pairs the i-th time with the filename numbered
start + i. -/
theorem expectedRecords_getElem (name : String) (times : List Rat) :
    ∀ (start i : Nat) (t : Rat), times[i]? = some t →
      (expectedRecords name start times)[i]? = some (t, frame_filename name (start + i)) := by
  induction times with
  | nil => intro start i t h; simp at h
  | cons t0 ts ih =>
      intro start i t h
      cases i with
      | zero => simp at h; simp [expectedRecords, h]
      | succ n =>
          simp only [List.getElem?_cons_succ] at h
          have := ih (start + 1) n t h
          simpa [expectedRecords, Nat.add_assoc, Nat.add_comm 1 n] using this

/-- Claim C7: after K default-numbered export_frame calls with times
t_0..t_{K-1} on a fresh exporter, the manifest's root is declared a
Collection and it contains exactly K entries in call order, the i-th
carrying timestep t_i and a filename embedding the i-th 5-digit zero-padded
index; with K = 0 the collection is still valid and empty. -/
theorem claim7_pvd_manifest (dir name : String) (shapes : ShapeList) (times : List Rat) :
    (pvd_document (export_frames_default (VTKExporter.init dir name) shapes times)).rootType
      = "Collection" ∧
    (pvd_document (export_frames_default (VTKExporter.init dir name) shapes
      times)).entries.length = times.length ∧
    (∀ i t, times[i]? = some t →
      (pvd_document (export_frames_default (VTKExporter.init dir name) shapes
        times)).entries[i]? = some ⟨t, frame_filename name i⟩ ∧
      List.IsInfix (pad5 i).data (frame_filename name i).data) ∧
    (times = [] →
      (pvd_document (export_frames_default (VTKExporter.init dir name) shapes
        times)).entries = []) := by
  obtain ⟨h1, _h2, h3⟩ := export_frames_default_spec shapes times (VTKExporter.init dir name)
  have hrec : (export_frames_default (VTKExporter.init dir name) shapes times).frame_files
      = expectedRecords name 0 times := by
    simpa [VTKExporter.init] using h3
  have hlen : ∀ ts : List Rat, ∀ start : Nat,
      (expectedRecords name start ts).length = ts.length := by
    intro ts
    induction ts with
    | nil => intro start; rfl
    | cons x xs ih => intro start; simp [expectedRecords, ih]
  refine ⟨rfl, ?_, ?_, ?_⟩
  · simp [pvd_document, hrec, hlen]
  · intro i t h
    refine ⟨?_, pad5_infix_frame_filename name i⟩
    have := expectedRecords_getElem name times 0 i t h
    simp only [Nat.zero_add] at this
    simp [pvd_document, hrec, this]
  · intro h
    subst h
    simp [pvd_document, hrec, expectedRecords]

/-- Claim C7 witness: two concrete default-numbered frame exports at times
0 and 1/2 yield a Collection manifest of two entries, the second pairing
time 1/2 with the 00001-indexed filename it embeds. -/
theorem claim7_pvd_manifest_witness :
    (pvd_document (export_frames_default (VTKExporter.init "out" "TS") sampleScene
      [0, 1/2])).rootType = "Collection" ∧
    (pvd_document (export_frames_default (VTKExporter.init "out" "TS") sampleScene
      [0, 1/2])).entries.length = 2 ∧
    (pvd_document (export_frames_default (VTKExporter.init "out" "TS") sampleScene
      [0, 1/2])).entries[1]? = some ⟨1/2, frame_filename "TS" 1⟩ ∧
    List.IsInfix (pad5 1).data (frame_filename "TS" 1).data := by
  obtain ⟨h1, h2, h3, _⟩ := claim7_pvd_manifest "out" "TS" sampleScene [0, 1/2]
  obtain ⟨ha, hb⟩ := h3 1 (1/2) (by rfl)
  exact ⟨h1, h2, ha, hb⟩

/-- Without the POLYGONS verdict the path converter emits no polygon cell. -/
theorem pathCells_snd_eq_nil (wl : Bool) (sps : List Subpath) :
    ∀ start, (pathCells wl false start sps).2 = [] := by
  induction sps with
  | nil => intro start; rfl
  | cons sp rest ih => intro start; simp [pathCells, ih]

/-- With the LINES verdict, a sub-path list containing a non-empty sub-path
yields at least one line cell. -/
theorem pathCells_fst_ne_nil (wp : Bool) (sps : List Subpath) :
    ∀ start, (∃ sp ∈ sps, sp.pts ≠ []) → (pathCells true wp start sps).1 ≠ [] := by
  induction sps with
  | nil => intro start h; simp at h
  | cons sp rest ih =>
      intro start h
      by_cases hsp : sp.pts = []
      · have hlen : sp.pts.length = 0 := by simp [hsp]
        have h' : ∃ x ∈ rest, x.pts ≠ [] := by
          rcases h with ⟨x, hx, hne⟩
          rcases List.mem_cons.mp hx with rfl | hxr
          · exact absurd hsp hne
          · exact ⟨x, hxr, hne⟩
        simpa [pathCells, hlen] using ih (start + sp.pts.length) h'
      · have hlen : 1 ≤ sp.pts.length := by
          cases hp : sp.pts with
          | nil => exact absurd hp hsp
          | cons a l => simp [hp]
        simp [pathCells, hlen]

/-- With the POLYGONS verdict, a sub-path list containing a closed sub-path
of at least 3 points yields at least one polygon cell. -/
theorem pathCells_snd_ne_nil (wl : Bool) (sps : List Subpath) :
    ∀ start, (∃ sp ∈ sps, sp.closed = true ∧ 3 ≤ sp.pts.length) →
      (pathCells wl true start sps).2 ≠ [] := by
  induction sps with
  | nil => intro start h; simp at h
  | cons sp rest ih =>
      intro start h
      by_cases hc : sp.closed = true ∧ 3 ≤ sp.pts.length
      · simp [pathCells, hc.1, hc.2]
      · have hcond : (sp.closed && decide (3 ≤ sp.pts.length)) = false := by
          cases hcl : sp.closed
          · rfl
          · have : ¬ 3 ≤ sp.pts.length := fun hle => hc ⟨hcl, hle⟩
            simp [this]
        have h' : ∃ x ∈ rest, x.closed = true ∧ 3 ≤ x.pts.length := by
          rcases h with ⟨x, hx, hcx⟩
          rcases List.mem_cons.mp hx with rfl | hxr
          · exact absurd hcx hc
          · exact ⟨x, hxr, hcx⟩
        have := ih (start + sp.pts.length) h'
        simp only [pathCells, Bool.and_assoc, hcond, Bool.and_false, if_false]
        simpa using this

/-- A sub-path list whose total point count is at least 2 contains a
non-empty sub-path. -/
theorem exists_nonempty_subpath (sps : List Subpath)
    (h : 2 ≤ (sps.map (fun sp => sp.pts.length)).sum) :
    ∃ sp ∈ sps, sp.pts ≠ [] := by
  by_contra hc
  push_neg at hc
  have : (sps.map (fun sp => sp.pts.length)).sum = 0 := by
    rw [List.sum_eq_zero_iff]
    intro x hx
    rcases List.mem_map.mp hx with ⟨sp, hsp, rfl⟩
    simp [hc sp hsp]
  omega

/-- Claim C1 (amended): a path leaf with fill opacity 0, nonzero stroke and
at least 2 points converts to a mesh with no polygon cells and at least one
line cell; a path leaf with fill opacity > 0 that has at least one closed
sub-path of at least 3 points converts to a mesh with at least one polygon
cell. -/
theorem claim1_stroke_fill_classification (sps : List Subpath) (fo sw : Rat)
    (cols : Option (List RGBA)) :
    (fo = 0 → 0 < sw → 2 ≤ (sps.map (fun sp => sp.pts.length)).sum →
      (mobject_to_vtk_polydata (.path sps fo sw cols)).polygons = [] ∧
      (mobject_to_vtk_polydata (.path sps fo sw cols)).lines ≠ []) ∧
    (0 < fo → (∃ sp ∈ sps, sp.closed = true ∧ 3 ≤ sp.pts.length) →
      (mobject_to_vtk_polydata (.path sps fo sw cols)).polygons ≠ []) := by
  constructor
  · rintro rfl hsw hsum
    have hpoly : includesPolygons 0 = false := by simp [includesPolygons]
    have hline : includesLines sw 0 = true := by simp [includesLines]
    constructor
    · simp only [mobject_to_vtk_polydata, pathToMesh, hpoly]
      exact pathCells_snd_eq_nil _ sps 0
    · simp only [mobject_to_vtk_polydata, pathToMesh, hline]
      exact pathCells_fst_ne_nil _ sps 0 (exists_nonempty_subpath sps hsum)
  · intro hfo hex
    have hpoly : includesPolygons fo = true := by simp [includesPolygons, hfo]
    simp only [mobject_to_vtk_polydata, pathToMesh, hpoly]
    exact pathCells_snd_ne_nil _ sps 0 hex

/-- Claim C1 counterexample: the open triangle leaf has fill opacity 1 > 0
(the classifier does include POLYGONS for it) and three points, yet its
mesh's polygon set is empty, because its only sub-path is not closed — so
the unamended claim that every leaf with positive fill opacity produces a
non-empty polygon set is false. -/
theorem claim1_counterexample :
    (0 : Rat) < 1 ∧ includesPolygons 1 = true ∧ totalPoints openTriangle = 3 ∧
    (mobject_to_vtk_polydata openTriangle).polygons = [] := by
  refine ⟨by norm_num, by decide, ?_, ?_⟩
  · simp [openTriangle, totalPoints]
  · simp [openTriangle, mobject_to_vtk_polydata, pathToMesh, pathCells]

/-- Claim C1 witness: the concrete stroke-only segment converts to no
polygons and a non-empty line set, and the concrete filled closed triangle
to a non-empty polygon set. -/
theorem claim1_stroke_fill_classification_witness :
    (mobject_to_vtk_polydata strokeSegment).polygons = [] ∧
    (mobject_to_vtk_polydata strokeSegment).lines ≠ [] ∧
    (mobject_to_vtk_polydata filledTriangle).polygons ≠ [] := by
  have h1 := (claim1_stroke_fill_classification
    [⟨[⟨-1, 0, 0⟩, ⟨1, 0, 0⟩], false⟩] 0 1 none).1 rfl (by norm_num) (by decide)
  have h2 := (claim1_stroke_fill_classification
    [⟨[⟨0, 0, 0⟩, ⟨1, 0, 0⟩, ⟨0, 1, 0⟩], true⟩] (1/2) 1 none).2 (by norm_num)
    ⟨⟨[⟨0, 0, 0⟩, ⟨1, 0, 0⟩, ⟨0, 1, 0⟩], true⟩, by simp, rfl, by decide⟩
  exact ⟨h1.1, h1.2, h2⟩

/-- Flattening a list of equal-length rows multiplies the counts. -/
theorem flatten_length_const {α : Type} (c : Nat) :
    ∀ l : List (List α), (∀ x ∈ l, x.length = c) → l.flatten.length = l.length * c := by
  intro l
  induction l with
  | nil => intro _; simp
  | cons x xs ih =>
      intro h
      rw [List.flatten_cons, List.length_append, ih (fun y hy => h y (by simp [hy])),
        h x (by simp), List.length_cons]
      ring

/-- Row-major indexing into the flattening of equal-length rows. -/
theorem flatten_getElem_const {α : Type} (c : Nat) :
    ∀ l : List (List α), (∀ x ∈ l, x.length = c) →
      ∀ i j, j < c → l.flatten[i * c + j]? = (l[i]?.bind (fun row => row[j]?)) := by
  intro l
  induction l with
  | nil => intro _ i j _; simp
  | cons row rest ih =>
      intro hl i j hj
      have hrow : row.length = c := hl row (by simp)
      cases i with
      | zero =>
          rw [List.flatten_cons]
          simp only [Nat.zero_mul, Nat.zero_add]
          rw [List.getElem?_append_left (by omega)]
          simp
      | succ n =>
          have hsplit : (n + 1) * c + j = row.length + (n * c + j) := by rw [hrow]; ring
          rw [List.flatten_cons, hsplit, List.getElem?_append_right (by omega)]
          rw [Nat.add_sub_cancel_left]
          rw [ih (fun x hx => hl x (by simp [hx])) n j hj]
          simp

/-- A grid-cell corner index is in range. -/
theorem cell_index_bound {r c k d : Nat} (hk : k < r) (hd : d < c) : k * c + d < r * c :=
  calc k * c + d < k * c + c := by omega
    _ = (k + 1) * c := by ring
    _ ≤ r * c := Nat.mul_le_mul_right c (by omega)

/-- The surface adapter emits exactly one point per grid node. -/
theorem surface_points_length (f : Rat → Rat → Point3) (uR vR : Rat × Rat) (r c : Nat) :
    (surface_to_vtk_polydata f uR vR (r, c)).points.length = r * c := by
  have hrows : ∀ x ∈ (List.range r).map (fun i => (List.range c).map (fun j =>
      f (gridCoord uR.1 uR.2 r i) (gridCoord vR.1 vR.2 c j))), x.length = c := by
    intro x hx
    rcases List.mem_map.mp hx with ⟨i, _, rfl⟩
    simp
  rw [show (surface_to_vtk_polydata f uR vR (r, c)).points
      = ((List.range r).map (fun i => (List.range c).map (fun j =>
          f (gridCoord uR.1 uR.2 r i) (gridCoord vR.1 vR.2 c j)))).flatten from rfl,
    flatten_length_const c _ hrows]
  simp

/-- The surface adapter emits exactly one quadrilateral per grid cell. -/
theorem surface_polygons_length (f : Rat → Rat → Point3) (uR vR : Rat × Rat) (r c : Nat) :
    (surface_to_vtk_polydata f uR vR (r, c)).polygons.length = (r - 1) * (c - 1) := by
  have hqrows : ∀ x ∈ (List.range (r - 1)).map (fun i => (List.range (c - 1)).map (fun j =>
      [i * c + j, i * c + j + 1, (i + 1) * c + j + 1, (i + 1) * c + j])), x.length = c - 1 := by
    intro x hx
    rcases List.mem_map.mp hx with ⟨i, _, rfl⟩
    simp
  rw [show (surface_to_vtk_polydata f uR vR (r, c)).polygons
      = ((List.range (r - 1)).map (fun i => (List.range (c - 1)).map (fun j =>
          [i * c + j, i * c + j + 1, (i + 1) * c + j + 1, (i + 1) * c + j]))).flatten from rfl,
    flatten_length_const (c - 1) _ hqrows]
  simp

/-- Every quadrilateral the surface adapter emits has 4 corner indices, all
referencing grid nodes. -/
theorem surface_polygon_cells (f : Rat → Rat → Point3) (uR vR : Rat × Rat) (r c : Nat) :
    ∀ cell ∈ (surface_to_vtk_polydata f uR vR (r, c)).polygons,
      cell.length = 4 ∧ ∀ idx ∈ cell, idx < r * c := by
  intro cell hcell
  rcases List.mem_flatten.mp hcell with ⟨rowcells, hrowmem, hcellmem⟩
  rcases List.mem_map.mp hrowmem with ⟨i, hi, rfl⟩
  rcases List.mem_map.mp hcellmem with ⟨j, hj, rfl⟩
  rw [List.mem_range] at hi hj
  have hi' : i < r ∧ i + 1 < r := by omega
  have hj' : j < c ∧ j + 1 < c := by omega
  refine ⟨rfl, ?_⟩
  intro idx hidx
  simp only [List.mem_cons, List.not_mem_nil, or_false] at hidx
  rcases hidx with rfl | rfl | rfl | rfl
  · exact cell_index_bound hi'.1 hj'.1
  · exact cell_index_bound hi'.1 hj'.2
  · exact cell_index_bound hi'.2 hj'.2
  · exact cell_index_bound hi'.2 hj'.1

/-- Claim C9: the surface adapter emits exactly r × c points — one per node
of the regular parameter grid, in row-major order — and one quadrilateral
polygon per grid cell, so (r-1) × (c-1) polygons, with zero polygons when
either dimension is below 2; every polygon has 4 in-range corner indices
and the mesh never contains line cells. -/
theorem claim9_surface_grid (f : Rat → Rat → Point3) (uR vR : Rat × Rat) (r c : Nat) :
    (surface_to_vtk_polydata f uR vR (r, c)).points.length = r * c ∧
    (surface_to_vtk_polydata f uR vR (r, c)).lines = [] ∧
    (surface_to_vtk_polydata f uR vR (r, c)).polygons.length = (r - 1) * (c - 1) ∧
    (∀ i j, i < r → j < c →
      (surface_to_vtk_polydata f uR vR (r, c)).points[i * c + j]?
        = some (f (gridCoord uR.1 uR.2 r i) (gridCoord vR.1 vR.2 c j))) ∧
    (∀ i j, i < r - 1 → j < c - 1 →
      (surface_to_vtk_polydata f uR vR (r, c)).polygons[i * (c - 1) + j]?
        = some [i * c + j, i * c + j + 1, (i + 1) * c + j + 1, (i + 1) * c + j]) ∧
    (∀ cell ∈ (surface_to_vtk_polydata f uR vR (r, c)).polygons,
      cell.length = 4 ∧ ∀ idx ∈ cell, idx < r * c) := by
  have hrows : ∀ x ∈ (List.range r).map (fun i => (List.range c).map (fun j =>
      f (gridCoord uR.1 uR.2 r i) (gridCoord vR.1 vR.2 c j))), x.length = c := by
    intro x hx
    rcases List.mem_map.mp hx with ⟨i, _, rfl⟩
    simp
  have hqrows : ∀ x ∈ (List.range (r - 1)).map (fun i => (List.range (c - 1)).map (fun j =>
      [i * c + j, i * c + j + 1, (i + 1) * c + j + 1, (i + 1) * c + j])), x.length = c - 1 := by
    intro x hx
    rcases List.mem_map.mp hx with ⟨i, _, rfl⟩
    simp
  refine ⟨surface_points_length f uR vR r c, rfl, surface_polygons_length f uR vR r c,
    ?_, ?_, ?_⟩
  · intro i j hi hj
    rw [show (surface_to_vtk_polydata f uR vR (r, c)).points
        = ((List.range r).map (fun i => (List.range c).map (fun j =>
            f (gridCoord uR.1 uR.2 r i) (gridCoord vR.1 vR.2 c j)))).flatten from rfl,
      flatten_getElem_const c _ hrows i j hj]
    rw [List.getElem?_map, List.getElem?_range hi]
    simp [List.getElem?_map, List.getElem?_range hj]
  · intro i j hi hj
    rw [show (surface_to_vtk_polydata f uR vR (r, c)).polygons
        = ((List.range (r - 1)).map (fun i => (List.range (c - 1)).map (fun j =>
            [i * c + j, i * c + j + 1, (i + 1) * c + j + 1, (i + 1) * c + j]))).flatten from rfl,
      flatten_getElem_const (c - 1) _ hqrows i j hj]
    rw [List.getElem?_map, List.getElem?_range hi]
    simp [List.getElem?_map, List.getElem?_range hj]
  · exact surface_polygon_cells f uR vR r c

/-- Claim C9 witness: a concrete 2 × 2 surface yields 4 points, a single
quadrilateral [0, 1, 3, 2], no line cells, and its last point is the grid
node at the far parameter corner. -/
theorem claim9_surface_grid_witness :
    (surface_to_vtk_polydata sampleCoord (0, 1) (0, 1) (2, 2)).points.length = 4 ∧
    (surface_to_vtk_polydata sampleCoord (0, 1) (0, 1) (2, 2)).lines = [] ∧
    (surface_to_vtk_polydata sampleCoord (0, 1) (0, 1) (2, 2)).polygons.length = 1 ∧
    (surface_to_vtk_polydata sampleCoord (0, 1) (0, 1) (2, 2)).points[3]?
      = some (sampleCoord (gridCoord 0 1 2 1) (gridCoord 0 1 2 1)) ∧
    (surface_to_vtk_polydata sampleCoord (0, 1) (0, 1) (2, 2)).polygons[0]?
      = some [0, 1, 3, 2] := by
  obtain ⟨h1, h2, h3, h4, h5, _⟩ := claim9_surface_grid sampleCoord (0, 1) (0, 1) 2 2
  refine ⟨h1, h2, h3, ?_, ?_⟩
  · simpa using h4 1 1 (by decide) (by decide)
  · simpa using h5 0 0 (by decide) (by decide)

/-- Sub-paths that all have zero points produce no cells at all. -/
theorem pathCells_of_all_empty (wl wp : Bool) (sps : List Subpath)
    (h : ∀ sp ∈ sps, sp.pts.length = 0) :
    ∀ start, pathCells wl wp start sps = ([], []) := by
  induction sps with
  | nil => intro start; rfl
  | cons sp rest ih =>
      intro start
      have hsp : sp.pts.length = 0 := h sp (by simp)
      simp [pathCells, hsp, ih (fun x hx => h x (by simp [hx]))]

mutual
/-- A shape contributing zero points converts to the empty mesh. -/
theorem convert_empty_of_zero (s : Shape) (h : totalPoints s = 0) :
    mobject_to_vtk_polydata s = emptyMesh := by
  cases s with
  | path sps fo sw cols =>
      have hsum : (sps.map (fun sp => sp.pts.length)).sum = 0 := by
        simpa [totalPoints] using h
      have hall : ∀ sp ∈ sps, sp.pts.length = 0 := by
        intro sp hsp
        exact List.sum_eq_zero_iff.mp hsum sp.pts.length (List.mem_map.mpr ⟨sp, hsp, rfl⟩)
      have hpts : (sps.map Subpath.pts).flatten = [] := by
        rw [List.flatten_eq_nil_iff]
        intro x hx
        rcases List.mem_map.mp hx with ⟨sp, hsp, rfl⟩
        exact List.length_eq_zero.mp (hall sp hsp)
      have hcells :=
        pathCells_of_all_empty (includesLines sw fo) (includesPolygons fo) sps hall 0
      simp only [mobject_to_vtk_polydata, pathToMesh, hpts, hcells, emptyMesh]
      cases cols <;> simp
  | surface f uR vR res =>
      obtain ⟨r, c⟩ := res
      have h0 : r * c = 0 := by simpa [totalPoints] using h
      have hp : (surface_to_vtk_polydata f uR vR (r, c)).points = [] :=
        List.length_eq_zero.mp (by rw [surface_points_length]; exact h0)
      have hq : (surface_to_vtk_polydata f uR vR (r, c)).polygons = [] := by
        refine List.length_eq_zero.mp ?_
        rw [surface_polygons_length]
        rcases Nat.mul_eq_zero.mp h0 with h1 | h1 <;> simp [h1]
      simp only [mobject_to_vtk_polydata]
      rw [show surface_to_vtk_polydata f uR vR (r, c)
          = ⟨(surface_to_vtk_polydata f uR vR (r, c)).points, [],
             (surface_to_vtk_polydata f uR vR (r, c)).polygons, [], []⟩ from rfl, hp, hq]
      rfl
  | container cs =>
      simp only [mobject_to_vtk_polydata]
      exact convertList_empty_of_zero cs (by simpa [totalPoints] using h)
/-- A shape list contributing zero points flattens to the empty mesh. -/
theorem convertList_empty_of_zero (cs : ShapeList) (h : totalPointsList cs = 0) :
    vmobject_to_vtk_polydata cs = emptyMesh := by
  cases cs with
  | nil => rfl
  | cons s rest =>
      have h1 : totalPoints s = 0 := by
        simp only [totalPointsList] at h
        omega
      have h2 : totalPointsList rest = 0 := by
        simp only [totalPointsList] at h
        omega
      simp only [vmobject_to_vtk_polydata]
      rw [convert_empty_of_zero s h1, convertList_empty_of_zero rest h2]
      rfl
end

/-- Claim C3: converting any shape contributing zero points — a path leaf
with no points, a surface with a zero resolution dimension, or a container
with no reachable leaf points, at any nesting depth — always returns the
mesh with zero points, zero lines, zero polygons, zero colors and zero
fields; that mesh satisfies the validity invariants, and exporting the
one-shape scene still writes a syntactically valid single-mesh `.vtp`
file. -/
theorem claim3_empty_input (s : Shape) (e : VTKExporter) (h : totalPoints s = 0) :
    mobject_to_vtk_polydata s = emptyMesh ∧
    meshIsValid (mobject_to_vtk_polydata s) = true ∧
    (export_scene_static e (.cons s .nil) none).1.disk
      = e.disk ++ [(ensureExt (e.scene_name ++ "_scene") ".vtp", DiskFile.vtp emptyMesh)] ∧
    hasSuffix (export_scene_static e (.cons s .nil) none).2 ".vtp" = true := by
  have hm := convert_empty_of_zero s h
  have hvm : vmobject_to_vtk_polydata (.cons s .nil) = emptyMesh := by
    simp only [vmobject_to_vtk_polydata, hm]
    rfl
  have hlen : (ShapeList.cons s .nil).length ≤ 1 := by
    simp [ShapeList.length]
  refine ⟨hm, by rw [hm]; rfl, ?_, ?_⟩
  · simp only [export_scene_static, scene_static_file]
    rw [if_pos hlen, hvm]
    rfl
  · simp only [export_scene_static, scene_static_file]
    rw [if_pos hlen]
    exact hasSuffix_ensureExt _ _

/-- Claim C3 witness: the empty container and an empty path leaf both
convert to the empty, valid mesh. -/
theorem claim3_empty_input_witness :
    mobject_to_vtk_polydata (Shape.container .nil) = emptyMesh ∧
    meshIsValid (mobject_to_vtk_polydata (Shape.container .nil)) = true ∧
    mobject_to_vtk_polydata (Shape.path [] 0 1 none) = emptyMesh := by
  have h1 := claim3_empty_input (Shape.container .nil)
    (VTKExporter.init "out" "EmptyScene") (by simp [totalPoints, totalPointsList])
  have h2 := claim3_empty_input (Shape.path [] 0 1 none)
    (VTKExporter.init "out" "EmptyScene2") (by simp [totalPoints])
  exact ⟨h1.1, h1.2.1, h2.1⟩

/-- The points of an appended mesh. -/
theorem meshAppend_points (m1 m2 : Mesh) :
    (meshAppend m1 m2).points = m1.points ++ m2.points := rfl

/-- The line cells of an appended mesh: the second mesh's cells shifted by
the first's point count. -/
theorem meshAppend_lines (m1 m2 : Mesh) :
    (meshAppend m1 m2).lines = m1.lines ++ shiftCells m1.points.length m2.lines := rfl

/-- The polygon cells of an appended mesh. -/
theorem meshAppend_polygons (m1 m2 : Mesh) :
    (meshAppend m1 m2).polygons = m1.polygons ++ shiftCells m1.points.length m2.polygons := rfl

/-- Appending the empty mesh on the left is the identity. -/
theorem meshAppend_empty_left (m : Mesh) : meshAppend emptyMesh m = m := by
  cases m
  simp [meshAppend, emptyMesh]

/-- Appending the empty mesh on the right is the identity. -/
theorem meshAppend_empty_right (m : Mesh) : meshAppend m emptyMesh = m := by
  cases m
  simp [meshAppend, emptyMesh]

/-- Shifting by zero changes no cell. -/
theorem shiftCells_zero (cells : List (List Nat)) : shiftCells 0 cells = cells := by
  simp [shiftCells]

/-- Two consecutive shifts add up. -/
theorem shiftCells_shiftCells (x y : Nat) (cells : List (List Nat)) :
    shiftCells y (shiftCells x cells) = shiftCells (x + y) cells := by
  unfold shiftCells
  rw [List.map_map]
  have hf : (List.map (fun i : Nat => i + y) ∘ List.map (fun i : Nat => i + x))
      = List.map (fun i : Nat => i + (x + y)) := by
    funext cell
    rw [Function.comp_apply, List.map_map]
    have : ((fun i : Nat => i + y) ∘ fun i : Nat => i + x) = (fun i : Nat => i + (x + y)) := by
      funext i
      simp only [Function.comp_apply]
      omega
    rw [this]
  rw [hf]

/-- Shifting distributes over cell-list concatenation. -/
theorem shiftCells_append (n : Nat) (a b : List (List Nat)) :
    shiftCells n (a ++ b) = shiftCells n a ++ shiftCells n b := by
  simp [shiftCells]

/-- Shifting an offset cell concatenation raises its base offset. -/
theorem offsetCells_shift (f : Mesh → List (List Nat)) (n : Nat) :
    ∀ (ms : List Mesh) (a : Nat),
      shiftCells n (offsetCells f ms a) = offsetCells f ms (a + n) := by
  intro ms
  induction ms with
  | nil => intro a; simp [offsetCells, shiftCells]
  | cons m rest ih =>
      intro a
      rw [show offsetCells f (m :: rest) a
          = shiftCells a (f m) ++ offsetCells f rest (a + m.points.length) from rfl,
        show offsetCells f (m :: rest) (a + n)
          = shiftCells (a + n) (f m) ++ offsetCells f rest (a + n + m.points.length) from rfl,
        shiftCells_append, shiftCells_shiftCells, ih (a + m.points.length),
        show a + m.points.length + n = a + n + m.points.length from by omega]

/-- The point colors of an appended mesh. -/
theorem meshAppend_pointColors (m1 m2 : Mesh) :
    (meshAppend m1 m2).pointColors = m1.pointColors ++ m2.pointColors := rfl

/-- The named fields of an appended mesh. -/
theorem meshAppend_namedFields (m1 m2 : Mesh) :
    (meshAppend m1 m2).namedFields = m1.namedFields ++ m2.namedFields := rfl

/-- Meshes agreeing on every component are equal. -/
theorem mesh_eq_of_parts {m1 m2 : Mesh} (hp : m1.points = m2.points)
    (hl : m1.lines = m2.lines) (hq : m1.polygons = m2.polygons)
    (hc : m1.pointColors = m2.pointColors) (hf : m1.namedFields = m2.namedFields) :
    m1 = m2 := by
  cases m1
  cases m2
  simp only at hp hl hq hc hf
  subst hp
  subst hl
  subst hq
  subst hc
  subst hf
  rfl

/-- Mesh concatenation is associative. -/
theorem meshAppend_assoc (a b c : Mesh) :
    meshAppend (meshAppend a b) c = meshAppend a (meshAppend b c) := by
  refine mesh_eq_of_parts ?_ ?_ ?_ ?_ ?_
  · simp only [meshAppend_points, List.append_assoc]
  · simp only [meshAppend_lines, meshAppend_points, List.length_append, shiftCells_append,
      shiftCells_shiftCells, List.append_assoc]
    rw [Nat.add_comm b.points.length a.points.length]
  · simp only [meshAppend_polygons, meshAppend_points, List.length_append, shiftCells_append,
      shiftCells_shiftCells, List.append_assoc]
    rw [Nat.add_comm b.points.length a.points.length]
  · simp only [meshAppend_pointColors, List.append_assoc]
  · simp only [meshAppend_namedFields, List.append_assoc]

/-- Concatenating a list of meshes starting from the head. -/
theorem meshConcat_cons (m : Mesh) (ms : List Mesh) :
    meshConcat (m :: ms) = meshAppend m (meshConcat ms) := rfl

/-- Mesh concatenation splits over list concatenation. -/
theorem meshConcat_append (l1 l2 : List Mesh) :
    meshConcat (l1 ++ l2) = meshAppend (meshConcat l1) (meshConcat l2) := by
  induction l1 with
  | nil =>
      rw [List.nil_append, show meshConcat ([] : List Mesh) = emptyMesh from rfl,
        meshAppend_empty_left]
  | cons m rest ih =>
      rw [List.cons_append, meshConcat_cons, meshConcat_cons, ih, meshAppend_assoc]

/-- The point count of a mesh concatenation is the sum of the point
counts. -/
theorem meshConcat_points_length (ms : List Mesh) :
    (meshConcat ms).points.length = (ms.map (fun m => m.points.length)).sum := by
  induction ms with
  | nil => rfl
  | cons m rest ih =>
      rw [meshConcat_cons, meshAppend_points, List.length_append, ih]
      simp

/-- The line cells of a mesh concatenation are the members' line cells,
each shifted by the running total of the preceding point counts. -/
theorem meshConcat_lines (ms : List Mesh) :
    (meshConcat ms).lines = offsetCells (fun m => m.lines) ms 0 := by
  induction ms with
  | nil => rfl
  | cons m rest ih =>
      rw [meshConcat_cons, meshAppend_lines, ih, offsetCells_shift,
        show offsetCells (fun m => m.lines) (m :: rest) 0
          = shiftCells 0 m.lines ++ offsetCells (fun x => x.lines) rest (0 + m.points.length)
          from rfl,
        shiftCells_zero]

/-- The polygon cells of a mesh concatenation, likewise offset. -/
theorem meshConcat_polygons (ms : List Mesh) :
    (meshConcat ms).polygons = offsetCells (fun m => m.polygons) ms 0 := by
  induction ms with
  | nil => rfl
  | cons m rest ih =>
      rw [meshConcat_cons, meshAppend_polygons, ih, offsetCells_shift,
        show offsetCells (fun m => m.polygons) (m :: rest) 0
          = shiftCells 0 m.polygons
            ++ offsetCells (fun x => x.polygons) rest (0 + m.points.length) from rfl,
        shiftCells_zero]

mutual
/-- Converting a shape equals concatenating the meshes of its leaves in
visiting order. -/
theorem convert_eq_concat (s : Shape) :
    mobject_to_vtk_polydata s = meshConcat (leafMeshes s) := by
  cases s with
  | path sps fo sw cols =>
      simp only [mobject_to_vtk_polydata, leafMeshes]
      rw [meshConcat_cons, show meshConcat ([] : List Mesh) = emptyMesh from rfl,
        meshAppend_empty_right]
  | surface f uR vR res =>
      simp only [mobject_to_vtk_polydata, leafMeshes]
      rw [meshConcat_cons, show meshConcat ([] : List Mesh) = emptyMesh from rfl,
        meshAppend_empty_right]
  | container cs =>
      simp only [mobject_to_vtk_polydata, leafMeshes]
      exact convertList_eq_concat cs
/-- Flattening a shape list equals concatenating the meshes of its leaves. -/
theorem convertList_eq_concat (cs : ShapeList) :
    vmobject_to_vtk_polydata cs = meshConcat (leafMeshesList cs) := by
  cases cs with
  | nil => rfl
  | cons s rest =>
      simp only [vmobject_to_vtk_polydata, leafMeshesList]
      rw [convert_eq_concat s, convertList_eq_concat rest, meshConcat_append]
end

/-- An index bound for the in-order indices of one sub-path. -/
theorem mem_idxs_bound {len start i : Nat}
    (h : i ∈ (List.range len).map (fun j => j + start)) :
    start ≤ i ∧ i < start + len := by
  rcases List.mem_map.mp h with ⟨j, hj, rfl⟩
  rw [List.mem_range] at hj
  omega

/-- Every cell the path-cell walk produces from a given start index uses
only indices in the window of the remaining sub-paths' points. -/
theorem pathCells_bound (wl wp : Bool) (sps : List Subpath) :
    ∀ start, ∀ cell ∈ (pathCells wl wp start sps).1 ++ (pathCells wl wp start sps).2,
      ∀ i ∈ cell, start ≤ i ∧ i < start + (sps.map (fun sp => sp.pts.length)).sum := by
  induction sps with
  | nil => intro start cell hcell; simp [pathCells] at hcell
  | cons sp rest ih =>
      intro start cell hcell i hi
      have hsum : ((sp :: rest).map (fun sp => sp.pts.length)).sum
          = sp.pts.length + (rest.map (fun sp => sp.pts.length)).sum := by simp
      have htail : cell ∈ (pathCells wl wp (start + sp.pts.length) rest).1
            ++ (pathCells wl wp (start + sp.pts.length) rest).2 →
          start ≤ i ∧ i < start + ((sp :: rest).map (fun sp => sp.pts.length)).sum := by
        intro hmem
        have := ih (start + sp.pts.length) cell hmem i hi
        omega
      have hhead_line : cell = (if sp.closed then
            ((List.range sp.pts.length).map (fun j => j + start)) ++ [start]
          else (List.range sp.pts.length).map (fun j => j + start)) →
          1 ≤ sp.pts.length →
          start ≤ i ∧ i < start + ((sp :: rest).map (fun sp => sp.pts.length)).sum := by
        rintro rfl hlen
        have hidx : start ≤ i ∧ i < start + sp.pts.length := by
          cases hcl : sp.closed
          · rw [if_neg (by simp [hcl])] at hi
            exact mem_idxs_bound hi
          · rw [if_pos (by simp [hcl])] at hi
            rcases List.mem_append.mp hi with h | h
            · exact mem_idxs_bound h
            · rcases List.mem_singleton.mp h with rfl
              omega
        omega
      have hhead_poly : cell = (List.range sp.pts.length).map (fun j => j + start) →
          3 ≤ sp.pts.length →
          start ≤ i ∧ i < start + ((sp :: rest).map (fun sp => sp.pts.length)).sum := by
        rintro rfl hlen
        have := mem_idxs_bound hi
        omega
      simp only [pathCells] at hcell
      rcases List.mem_append.mp hcell with h | h
      · by_cases hcond : (wl && decide (1 ≤ sp.pts.length)) = true
        · rw [if_pos hcond] at h
          rcases List.mem_cons.mp h with rfl | h
          · refine hhead_line rfl ?_
            simp at hcond
            tauto
          · exact htail (List.mem_append.mpr (Or.inl h))
        · rw [if_neg hcond] at h
          exact htail (List.mem_append.mpr (Or.inl h))
      · by_cases hcond : (wp && sp.closed && decide (3 ≤ sp.pts.length)) = true
        · rw [if_pos hcond] at h
          rcases List.mem_cons.mp h with rfl | h
          · refine hhead_poly rfl ?_
            simp at hcond
            tauto
          · exact htail (List.mem_append.mpr (Or.inr h))
        · rw [if_neg hcond] at h
          exact htail (List.mem_append.mpr (Or.inr h))

/-- Every cell of a converted path leaf references an existing point. -/
theorem pathToMesh_bounded (sps : List Subpath) (fo sw : Rat)
    (cols : Option (List RGBA)) : meshBounded (pathToMesh sps fo sw cols) := by
  intro cell hcell i hi
  have hlen : (pathToMesh sps fo sw cols).points.length
      = (sps.map (fun sp => sp.pts.length)).sum := by
    simp only [pathToMesh, List.length_flatten, List.map_map]
    rfl
  have hmem : cell ∈ (pathCells (includesLines sw fo) (includesPolygons fo) 0 sps).1
      ++ (pathCells (includesLines sw fo) (includesPolygons fo) 0 sps).2 := hcell
  have := pathCells_bound (includesLines sw fo) (includesPolygons fo) sps 0 cell hmem i hi
  rw [hlen]
  omega

/-- Every cell of a converted surface leaf references an existing point. -/
theorem surface_bounded (f : Rat → Rat → Point3) (uR vR : Rat × Rat) (r c : Nat) :
    meshBounded (surface_to_vtk_polydata f uR vR (r, c)) := by
  intro cell hcell i hi
  have hpoly : cell ∈ (surface_to_vtk_polydata f uR vR (r, c)).polygons := by
    simpa [show (surface_to_vtk_polydata f uR vR (r, c)).lines = [] from rfl] using hcell
  rw [surface_points_length]
  exact ((surface_polygon_cells f uR vR r c) cell hpoly).2 i hi

/-- Mesh concatenation preserves in-range cell indices. -/
theorem meshBounded_append {m1 m2 : Mesh} (h1 : meshBounded m1) (h2 : meshBounded m2) :
    meshBounded (meshAppend m1 m2) := by
  intro cell hcell i hi
  rw [meshAppend_points, List.length_append]
  rw [meshAppend_lines, meshAppend_polygons] at hcell
  have hcases : cell ∈ m1.lines ++ m1.polygons ∨
      cell ∈ shiftCells m1.points.length (m2.lines ++ m2.polygons) := by
    rw [shiftCells_append]
    rcases List.mem_append.mp hcell with h | h
    · rcases List.mem_append.mp h with h | h
      · exact Or.inl (List.mem_append.mpr (Or.inl h))
      · exact Or.inr (List.mem_append.mpr (Or.inl h))
    · rcases List.mem_append.mp h with h | h
      · exact Or.inl (List.mem_append.mpr (Or.inr h))
      · exact Or.inr (List.mem_append.mpr (Or.inr h))
  rcases hcases with h | h
  · exact Nat.lt_of_lt_of_le (h1 cell h i hi) (Nat.le_add_right _ _)
  · rcases List.mem_map.mp h with ⟨c0, hc0, rfl⟩
    rcases List.mem_map.mp hi with ⟨i0, hi0, rfl⟩
    have := h2 c0 hc0 i0 hi0
    omega

mutual
/-- Every leaf mesh reachable from a shape has in-range cell indices. -/
theorem leafMeshes_bounded (s : Shape) : ∀ m ∈ leafMeshes s, meshBounded m := by
  cases s with
  | path sps fo sw cols =>
      intro m hm
      rw [leafMeshes, List.mem_singleton] at hm
      subst hm
      exact pathToMesh_bounded sps fo sw cols
  | surface f uR vR res =>
      intro m hm
      obtain ⟨r, c⟩ := res
      rw [leafMeshes, List.mem_singleton] at hm
      subst hm
      exact surface_bounded f uR vR r c
  | container cs =>
      intro m hm
      rw [leafMeshes] at hm
      exact leafMeshesList_bounded cs m hm
/-- Every leaf mesh reachable from a shape list has in-range cell indices. -/
theorem leafMeshesList_bounded (cs : ShapeList) :
    ∀ m ∈ leafMeshesList cs, meshBounded m := by
  cases cs with
  | nil => intro m hm; rw [leafMeshesList] at hm; simp at hm
  | cons s rest =>
      intro m hm
      rw [leafMeshesList] at hm
      rcases List.mem_append.mp hm with h | h
      · exact leafMeshes_bounded s m h
      · exact leafMeshesList_bounded rest m h
end

/-- Concatenating bounded meshes yields a bounded mesh. -/
theorem meshConcat_bounded (ms : List Mesh) (h : ∀ m ∈ ms, meshBounded m) :
    meshBounded (meshConcat ms) := by
  induction ms with
  | nil => intro cell hcell i hi; simp [meshConcat, emptyMesh] at hcell
  | cons m rest ih =>
      rw [meshConcat_cons]
      exact meshBounded_append (h m (by simp))
        (ih (fun x hx => h x (by simp [hx])))

/-- The running offset of the next mesh adds the current mesh's point
count. -/
theorem offsetAt_succ (ms : List Mesh) :
    ∀ k, offsetAt ms (k + 1) = offsetAt ms k + (ms.getD k emptyMesh).points.length := by
  induction ms with
  | nil => intro k; simp [offsetAt, emptyMesh]
  | cons m rest ih =>
      intro k
      cases k with
      | zero => simp [offsetAt, List.getD]
      | succ n =>
          simp only [offsetAt, List.map_cons, List.take_succ_cons, List.sum_cons,
            List.getD_cons_succ]
          have := ih n
          simp only [offsetAt] at this
          omega

/-- Running offsets never decrease. -/
theorem offsetAt_le (ms : List Mesh) (k d : Nat) : offsetAt ms k ≤ offsetAt ms (k + d) := by
  induction d with
  | zero => exact Nat.le_refl _
  | succ n ihn =>
      rw [show k + (n + 1) = (k + n) + 1 from rfl, offsetAt_succ]
      omega

/-- The index window of an earlier mesh ends no later than a later mesh's
window begins. -/
theorem offsetAt_mono (ms : List Mesh) {k j : Nat} (h : k < j) :
    offsetAt ms k + (ms.getD k emptyMesh).points.length ≤ offsetAt ms j := by
  calc offsetAt ms k + (ms.getD k emptyMesh).points.length
      = offsetAt ms (k + 1) := (offsetAt_succ ms k).symm
    _ ≤ offsetAt ms ((k + 1) + (j - (k + 1))) := offsetAt_le ms (k + 1) (j - (k + 1))
    _ = offsetAt ms j := by congr 1; omega

/-- Claim C4: flattening a container of N leaves whose meshes contribute
p_0..p_{N-1} points yields a combined mesh with exactly Σp_i points; every
line and polygon index lies in [0, Σp_i); the combined cells are exactly
each leaf's cells shifted by the running total of the preceding leaves'
point counts; each leaf's shifted indices stay inside that leaf's window
[offset_k, offset_k + p_k); and the windows of distinct leaves are
disjoint, an earlier window ending no later than a later one begins. -/
theorem claim4_flatten_offsets (cs : ShapeList) :
    (mobject_to_vtk_polydata (.container cs)).points.length
      = ((leafMeshesList cs).map (fun m => m.points.length)).sum ∧
    (∀ cell ∈ (mobject_to_vtk_polydata (.container cs)).lines
        ++ (mobject_to_vtk_polydata (.container cs)).polygons,
      ∀ i ∈ cell, i < ((leafMeshesList cs).map (fun m => m.points.length)).sum) ∧
    (mobject_to_vtk_polydata (.container cs)).lines
      = offsetCells (fun m => m.lines) (leafMeshesList cs) 0 ∧
    (mobject_to_vtk_polydata (.container cs)).polygons
      = offsetCells (fun m => m.polygons) (leafMeshesList cs) 0 ∧
    (∀ k, k < (leafMeshesList cs).length →
      ∀ cell ∈ shiftCells (offsetAt (leafMeshesList cs) k)
          (((leafMeshesList cs).getD k emptyMesh).lines
            ++ ((leafMeshesList cs).getD k emptyMesh).polygons),
        ∀ i ∈ cell, offsetAt (leafMeshesList cs) k ≤ i ∧
          i < offsetAt (leafMeshesList cs) k
            + ((leafMeshesList cs).getD k emptyMesh).points.length) ∧
    (∀ k j, k < j →
      offsetAt (leafMeshesList cs) k + ((leafMeshesList cs).getD k emptyMesh).points.length
        ≤ offsetAt (leafMeshesList cs) j) := by
  have hconv : mobject_to_vtk_polydata (.container cs) = meshConcat (leafMeshesList cs) := by
    simp only [mobject_to_vtk_polydata]
    exact convertList_eq_concat cs
  have hbnd : meshBounded (meshConcat (leafMeshesList cs)) :=
    meshConcat_bounded _ (leafMeshesList_bounded cs)
  refine ⟨?_, ?_, ?_, ?_, ?_, ?_⟩
  · rw [hconv, meshConcat_points_length]
  · intro cell hcell i hi
    rw [hconv] at hcell
    have := hbnd cell hcell i hi
    rwa [meshConcat_points_length] at this
  · rw [hconv, meshConcat_lines]
  · rw [hconv, meshConcat_polygons]
  · intro k hk cell hcell i hi
    have hmem : (leafMeshesList cs).getD k emptyMesh ∈ leafMeshesList cs := by
      rw [List.getD_eq_getElem (leafMeshesList cs) emptyMesh hk]
      exact List.getElem_mem hk
    have hb := leafMeshesList_bounded cs _ hmem
    rcases List.mem_map.mp hcell with ⟨c0, hc0, rfl⟩
    rcases List.mem_map.mp hi with ⟨i0, hi0, rfl⟩
    have := hb c0 hc0 i0 hi0
    omega
  · intro k j hkj
    exact offsetAt_mono _ hkj

/-- Claim C4 witness: the concrete two-leaf scene (a 2-point segment and a
3-point triangle) flattens to 5 points, its line indices all below 5, with
the second leaf's window [2, 5) disjoint from the first's [0, 2). -/
theorem claim4_flatten_offsets_witness :
    (mobject_to_vtk_polydata (.container sampleScene)).points.length
      = ((leafMeshesList sampleScene).map (fun m => m.points.length)).sum ∧
    ((leafMeshesList sampleScene).map (fun m => m.points.length)).sum = 5 ∧
    (mobject_to_vtk_polydata (.container sampleScene)).lines
      = offsetCells (fun m => m.lines) (leafMeshesList sampleScene) 0 ∧
    (offsetAt (leafMeshesList sampleScene) 0
        + ((leafMeshesList sampleScene).getD 0 emptyMesh).points.length
      ≤ offsetAt (leafMeshesList sampleScene) 1) ∧
    (∀ i ∈ ([0, 1] : List Nat),
      i < ((leafMeshesList sampleScene).map (fun m => m.points.length)).sum) := by
  obtain ⟨h1, h2, h3, _, _, h6⟩ := claim4_flatten_offsets sampleScene
  refine ⟨h1, by decide, h3, h6 0 1 (by decide), ?_⟩
  intro i hi
  refine h2 [0, 1] ?_ i hi
  rw [List.mem_append]
  left
  rw [show (mobject_to_vtk_polydata (.container sampleScene)).lines
      = [[0, 1], [2, 3, 4, 2]] from by decide]
  simp

end ManimVTK
